import Mathlib

/-!
Verification of the autoDashboard core pipeline
(`autodashboard/backend/analysis.py`): the cleaner `clean_data`, the
profiler `analyze_data` and the chart planner `generate_visualizations`.

The pandas `DataFrame` is embedded as a `Table`: an ordered list of column
names, a parallel list of per-column dtypes (pandas columns are homogeneous
by dtype: a float64/int column, an `object` column holding strings, or a
`datetime64` column), and a list of rows, each row a list of cells.  A cell
is `none` for a pandas missing value (`NaN`/`NaT`/`None`) or `some v` for a
concrete value.  Numbers and instants are embedded as exact rationals;
pandas computes in IEEE floats, and every property proved here is about the
exact-arithmetic content of the computations (NaN-ness, equality with 0 or
1, ordering), which float rounding does not change on the inputs considered.
-/

inductive Val where
  | num (q : ℚ)
  | str (s : String)
  | inst (t : ℚ)
deriving DecidableEq, Repr

abbrev Cell := Option Val

inductive Dtype where
  | numeric
  | obj
  | datetime
deriving DecidableEq, Repr

structure Table where
  names : List String
  dtypes : List Dtype
  rows : List (List Cell)
deriving DecidableEq, Repr

/-- A cell is admissible for a dtype: missing, or a value of the dtype's
kind.  pandas keeps columns homogeneous, so a well-formed table satisfies
this for every cell. -/
def cellOkB : Dtype → Cell → Bool
  | _, none => true
  | .numeric, some (.num _) => true
  | .obj, some (.str _) => true
  | .datetime, some (.inst _) => true
  | _, _ => false

/-- Well-formedness of the embedded DataFrame: the dtype list is parallel to
the name list, every row has one cell per column, and cells match their
column's dtype. -/
def Table.WF (t : Table) : Prop :=
  t.dtypes.length = t.names.length ∧
    ∀ r ∈ t.rows, r.length = t.names.length ∧
      ∀ j ∈ List.range t.names.length,
        cellOkB (t.dtypes.getD j .obj) (r.getD j none) = true

def colName (t : Table) (j : ℕ) : String := t.names.getD j ""

/-- The cells of column `j`, in row order (`df[col]`). -/
def colCells (rows : List (List Cell)) (j : ℕ) : List Cell :=
  rows.map (fun r => r.getD j none)

/-- `df.dropna(how='all')`: drop rows whose every cell is missing. -/
def dropEmptyRows (t : Table) : Table :=
  { t with rows := t.rows.filter (fun r => r.any (fun c => c.isSome)) }

/-- Indices of the columns `df.dropna(axis=1, how='all')` keeps: those with
at least one observed cell. -/
def keepColIdx (t : Table) : List ℕ :=
  (List.range t.names.length).filter
    (fun j => t.rows.any (fun r => (r.getD j none).isSome))

def selIdx {α : Type} (ks : List ℕ) (l : List α) : List α :=
  ks.filterMap (fun j => l[j]?)

/-- `df.dropna(axis=1, how='all')`: drop all-missing columns. -/
def dropEmptyCols (t : Table) : Table :=
  let ks := keepColIdx t
  { names := selIdx ks t.names
    dtypes := selIdx ks t.dtypes
    rows := t.rows.map (fun r => selIdx ks r) }

/-- Auxiliary loop of `dedupRows`: `seen` holds the rows already emitted. -/
def dedupRowsAux (seen : List (List Cell)) : List (List Cell) → List (List Cell)
  | [] => []
  | r :: rs =>
    if r ∈ seen then dedupRowsAux seen rs
    else r :: dedupRowsAux (r :: seen) rs

/-- `df.drop_duplicates()`: keep the first occurrence of each row.  pandas
treats missing values as equal to each other for duplicate detection, which
`none = none` matches. -/
def dedupRows (l : List (List Cell)) : List (List Cell) :=
  dedupRowsAux [] l

def observedStrs (cs : List Cell) : List String :=
  cs.filterMap (fun c =>
    match c with
    | some (.str s) => some s
    | _ => none)

def observedNums (cs : List Cell) : List ℚ :=
  cs.filterMap (fun c =>
    match c with
    | some (.num q) => some q
    | _ => none)

def observedInsts (cs : List Cell) : List ℚ :=
  cs.filterMap (fun c =>
    match c with
    | some (.inst q) => some q
    | _ => none)

/-- Lexicographic comparison of strings by code point, the order Python's
`str` comparison (hence `np.sort` on an object array of strings) uses. -/
def leChars : List Char → List Char → Bool
  | [], _ => true
  | _ :: _, [] => false
  | a :: as, b :: bs =>
    if a.toNat < b.toNat then true
    else if b.toNat < a.toNat then false
    else leChars as bs

def strLe (a b : String) : Prop := leChars a.data b.data = true

instance : DecidableRel strLe := fun a b => by
  unfold strLe; infer_instance

/-- Highest frequency among the observed values of a column
(`value_counts` inside `Series.mode`). -/
def maxCount (l : List String) : ℕ :=
  ((l.dedup).map (fun v => l.count v)).foldr max 0

/-- The values attaining the maximum frequency. -/
def modeTies (l : List String) : List String :=
  (l.dedup).filter (fun v => l.count v == maxCount l)

/-- `Series.mode()`: the most frequent values, sorted ascending
(`pandas.core.algorithms.mode` applies `np.sort` to the result). -/
def modesSorted (l : List String) : List String :=
  List.insertionSort strLe (modeTies l)

/-- The fill value `clean_data` uses for an object column: `mode()[0]` when
the mode Series is nonempty, the literal `"Unknown"` otherwise. -/
def modeFill (l : List String) : String :=
  (modesSorted l).headD "Unknown"

/-- `Series.median()`: middle of the sorted values, average of the two
middle values for an even count. -/
def medianQ (l : List ℚ) : ℚ :=
  let s := List.insertionSort (· ≤ ·) l
  if l.length % 2 = 1 then s.getD (l.length / 2) 0
  else (s.getD (l.length / 2 - 1) 0 + s.getD (l.length / 2) 0) / 2

/-- Per-column imputation value of `clean_data`: mode (or `"Unknown"`) for
object columns, median of observed values otherwise; `none` when a
non-object column has no observed values (`fillna(NaN)` is a no-op). -/
def fillValue (dt : Dtype) (cs : List Cell) : Cell :=
  match dt with
  | .obj => some (.str (modeFill (observedStrs cs)))
  | .numeric =>
    match observedNums cs with
    | [] => none
    | xs => some (.num (medianQ xs))
  | .datetime =>
    match observedInsts cs with
    | [] => none
    | xs => some (.inst (medianQ xs))

/-- `fillna`: keep an observed cell, replace a missing one by the column's
fill value. -/
def fillCell (c : Cell) (f : Cell) : Cell :=
  match c with
  | some v => some v
  | none => f

def fillsOf (t : Table) : List Cell :=
  (List.range t.names.length).map
    (fun j => fillValue (t.dtypes.getD j .obj) (colCells t.rows j))

/-- The missing-value imputation loop of `clean_data`.  The Python loop
fills the columns one at a time, but each column's fill value depends only
on that column, so the simultaneous form is equivalent. -/
def fillTable (t : Table) : Table :=
  { t with rows := t.rows.map (fun r => List.zipWith fillCell r (fillsOf t)) }

def digitVal (c : Char) : Option ℕ :=
  if c.isDigit then some (c.toNat - 48) else none

/-- Modelled subset of the formats `pd.to_datetime` parses: strict
`YYYY-MM-DD`.  The parsed instant is embedded as the rational
`y*10000 + m*100 + d`, which is strictly monotone in the calendar date. -/
def parseDate (s : String) : Option ℚ :=
  match s.data with
  | [y1, y2, y3, y4, h1, m1, m2, h2, d1, d2] =>
    if h1 = '-' ∧ h2 = '-' then
      match digitVal y1, digitVal y2, digitVal y3, digitVal y4,
            digitVal m1, digitVal m2, digitVal d1, digitVal d2 with
      | some a, some b, some c, some d, some e, some f, some g, some k =>
        let y := ((a * 10 + b) * 10 + c) * 10 + d
        let mo := e * 10 + f
        let da := g * 10 + k
        if 1 ≤ mo ∧ mo ≤ 12 ∧ 1 ≤ da ∧ da ≤ 31 then
          some (((y * 10000 + mo * 100 + da : ℕ) : ℚ))
        else none
      | _, _, _, _, _, _, _, _ => none
    else none
  | _ => none

/-- Whether `pd.to_datetime` succeeds on one cell of an object column: a
missing cell becomes `NaT` without error, a string must parse. -/
def cellParses (c : Cell) : Bool :=
  match c with
  | some (.str s) => (parseDate s).isSome
  | none => true
  | some _ => false

def promoteCell (c : Cell) : Cell :=
  match c with
  | some (.str s) => (parseDate s).map Val.inst
  | c => c

/-- Per column: does the `pd.to_datetime(df_clean[col])` attempt of
`clean_data` succeed?  Only object columns are attempted, and one
unparseable value fails the whole column (`errors='raise'`, caught by the
bare `except`). -/
def promoFlags (t : Table) : List Bool :=
  (List.range t.dtypes.length).map (fun j =>
    (t.dtypes.getD j .obj == .obj) && (colCells t.rows j).all cellParses)

/-- The date-promotion loop of `clean_data`: each object column whose
values all parse is replaced by the parsed instants and becomes a datetime
column; any parse failure leaves the column untouched (`except: pass`). -/
def promoteTable (t : Table) : Table :=
  let flags := promoFlags t
  { names := t.names
    dtypes := List.zipWith (fun b d => if b then Dtype.datetime else d) flags t.dtypes
    rows := t.rows.map (fun r =>
      List.zipWith (fun b c => if b then promoteCell c else c) flags r) }

/-- Steps 1-3 of `clean_data`: drop all-missing rows, drop all-missing
columns, drop duplicate rows. -/
def cleanPrep (t : Table) : Table :=
  let t2 := dropEmptyCols (dropEmptyRows t)
  { t2 with rows := dedupRows t2.rows }

/-- `clean_data(df)`.  When two surviving columns share a name,
`df_clean[col]` in the imputation loop returns a DataFrame and the
`.dtype` access raises `AttributeError`, which propagates to the caller;
this is modelled by the error branch (the partially processed local copy is
not observable). -/
def clean_data (t : Table) : Except String Table :=
  let t3 := cleanPrep t
  if t3.names.Nodup then .ok (promoteTable (fillTable t3))
  else .error "duplicate column names"

/-! ### Profiler -/

/-- Indices of the columns `select_dtypes(include=[np.number])` picks, in
table order. -/
def numericIdx (t : Table) : List ℕ :=
  (List.range t.names.length).filter (fun j => t.dtypes.getD j .obj == .numeric)

def objIdx (t : Table) : List ℕ :=
  (List.range t.names.length).filter (fun j => t.dtypes.getD j .numeric == .obj)

def dtIdx (t : Table) : List ℕ :=
  (List.range t.names.length).filter (fun j => t.dtypes.getD j .obj == .datetime)

/-- The non-missing numeric values of column `j` (pandas statistics skip
missing values). -/
def colNums (t : Table) (j : ℕ) : List ℚ :=
  observedNums (colCells t.rows j)

/-- One column's row of `df.describe()`.  `std_sq` is the square of the
reported standard deviation, i.e. the sample variance with the `n - 1`
denominator; it is `none` exactly when pandas reports `NaN` (fewer than two
values), and its square root — which is what `describe` prints — is `0`
iff `std_sq = some 0`. -/
structure Describe where
  count : ℕ
  mean : Option ℚ
  std_sq : Option ℚ
  min : Option ℚ
  q25 : Option ℚ
  q50 : Option ℚ
  q75 : Option ℚ
  max : Option ℚ
deriving DecidableEq, Repr

def meanQ (l : List ℚ) : Option ℚ :=
  if l.length = 0 then none else some (l.sum / l.length)

/-- Sample variance, `ddof=1`: `NaN` (here `none`) when there are fewer
than two values. -/
def sampleVar (l : List ℚ) : Option ℚ :=
  if l.length ≤ 1 then none
  else some ((l.map (fun x => (x - l.sum / l.length) ^ 2)).sum / ((l.length : ℚ) - 1))

/-- numpy linear-interpolation percentile, as used by `describe`. -/
def percentile (l : List ℚ) (p : ℚ) : Option ℚ :=
  if l.length = 0 then none
  else
    let s := List.insertionSort (· ≤ ·) l
    let h : ℚ := p * ((l.length : ℚ) - 1)
    let i : ℕ := (⌊h⌋).toNat
    some (s.getD i 0 + (h - ⌊h⌋) * (s.getD (min (i + 1) (l.length - 1)) 0 - s.getD i 0))

def describeList (l : List ℚ) : Describe :=
  { count := l.length
    mean := meanQ l
    std_sq := sampleVar l
    min := (List.insertionSort (· ≤ ·) l).head?
    q25 := percentile l (1 / 4)
    q50 := percentile l (1 / 2)
    q75 := percentile l (3 / 4)
    max := (List.insertionSort (· ≤ ·) l).getLast? }

/-- One entry of `df.corr()` in square-root-free form.  pandas computes the
Pearson coefficient `r = num / sqrt den2` with `num = Σ dx*dy` and
`den2 = (Σ dx^2) * (Σ dy^2)` (the `1/(n-1)` factors of covariance and
variances cancel), and reports `NaN` exactly when the divisor is zero. -/
structure CorrEntry where
  num : ℚ
  den2 : ℚ
deriving DecidableEq, Repr

def devs (xs : List ℚ) : List ℚ :=
  xs.map (fun x => x - xs.sum / xs.length)

/-- Sum of squared deviations of a column, `(n-1)` times its variance;
it is `0` exactly for a constant (or short) column. -/
def sumSq (xs : List ℚ) : ℚ :=
  ((devs xs).map (fun d => d ^ 2)).sum

def corrEntry (xs ys : List ℚ) : CorrEntry :=
  { num := ((devs xs).zipWith (· * ·) (devs ys)).sum
    den2 := sumSq xs * sumSq ys }

/-- The reported correlation is `NaN` (zero divisor). -/
def corrIsNaN (e : CorrEntry) : Prop := e.den2 = 0

/-- The reported correlation `num / sqrt den2` equals `1.0`: the divisor is
nonzero, `num` is nonnegative and `num^2 = den2`. -/
def corrEqOne (e : CorrEntry) : Prop :=
  e.den2 ≠ 0 ∧ 0 ≤ e.num ∧ e.num ^ 2 = e.den2

/-- The parts of the `analyze_data` result dictionary the specification
speaks about. -/
structure Analysis where
  rows : ℕ
  columns : ℕ
  missing_values : List (String × ℕ)
  numeric_summary : List (String × Describe)
  correlations : List (String × List (String × CorrEntry))
deriving DecidableEq, Repr

/-- `analyze_data(df)`: shape, per-column missing counts
(`df.isnull().sum()`), `describe()` on the numeric columns, and the
correlation matrix when at least two numeric columns exist. -/
def analyze_data (t : Table) : Analysis :=
  let nidx := numericIdx t
  { rows := t.rows.length
    columns := t.names.length
    missing_values := (List.range t.names.length).map (fun j =>
      (colName t j, (colCells t.rows j).countP (fun c => c.isNone)))
    numeric_summary := nidx.map (fun j => (colName t j, describeList (colNums t j)))
    correlations :=
      if 1 < nidx.length then
        nidx.map (fun j =>
          (colName t j, nidx.map (fun k =>
            (colName t k, corrEntry (colNums t j) (colNums t k)))))
      else [] }

def corrAt (a : Analysis) (c d : String) : Option CorrEntry :=
  (a.correlations.lookup c).bind (fun row => row.lookup d)

/-! ### Chart planner -/

inductive ChartType where
  | distribution
  | correlation
  | boxplot
  | categorical
  | scatter_matrix
  | timeseries
deriving DecidableEq, Repr

/-- A chart specification: its family tag and the column names it draws
(the embedded plotly document is opaque to the spec). -/
structure Chart where
  type : ChartType
  cols : List String
deriving DecidableEq, Repr

def numericNames (t : Table) : List String := (numericIdx t).map (colName t)

def objNames (t : Table) : List String := (objIdx t).map (colName t)

def dtNames (t : Table) : List String := (dtIdx t).map (colName t)

/-- `generate_visualizations(df)`: the six chart families in source order,
each gated on column availability, with the hard caps `[:5]`, `[:5]`,
`[:3]`, `[:4]` on the column lists. -/
def generate_visualizations (t : Table) : List Chart :=
  let nc := numericNames t
  let cc := objNames t
  let dc := dtNames t
  (if nc.length > 0 then (nc.take 5).map (fun c => { type := .distribution, cols := [c] })
   else [])
  ++ (if nc.length > 1 then [{ type := .correlation, cols := nc }] else [])
  ++ (if nc.length > 0 then [{ type := .boxplot, cols := nc.take 5 }] else [])
  ++ (if cc.length > 0 then (cc.take 3).map (fun c => { type := .categorical, cols := [c] })
      else [])
  ++ (if 2 ≤ nc.length then [{ type := .scatter_matrix, cols := nc.take 4 }] else [])
  ++ (if dc.length > 0 ∧ nc.length > 0 then
        [{ type := .timeseries, cols := [dc.headD "", nc.headD ""] }]
      else [])

def countCharts (t : Table) (ty : ChartType) : ℕ :=
  ((generate_visualizations t).filter (fun c => c.type == ty)).length

/-! ### Chart planner lemmas -/

theorem type_of_mem_take_map {ty : ChartType} {g : String → Chart}
    (h : ∀ s, (g s).type = ty) {n : ℕ} {l : List String} :
    ∀ c ∈ List.take n (l.map g), c.type = ty := by
  intro c hc
  rcases List.mem_map.1 (List.take_subset _ _ hc) with ⟨s, _, h2⟩
  subst h2
  exact h s

theorem filter_take_map_mk_eq (ty : ChartType) (g : String → List String) (n : ℕ)
    (l : List String) :
    (List.take n (l.map (fun s => ({ type := ty, cols := g s } : Chart)))).filter
        (fun c => c.type == ty) =
      List.take n (l.map (fun s => ({ type := ty, cols := g s } : Chart))) := by
  rw [List.filter_eq_self]
  intro c hc
  have := @type_of_mem_take_map ty (fun s => ({ type := ty, cols := g s } : Chart))
    (fun s => rfl) n l c hc
  simp [this]

theorem filter_take_map_mk_ne (ty ty' : ChartType) (hne : ¬ ty = ty') (g : String → List String)
    (n : ℕ) (l : List String) :
    (List.take n (l.map (fun s => ({ type := ty, cols := g s } : Chart)))).filter
        (fun c => c.type == ty') = [] := by
  rw [List.filter_eq_nil_iff]
  intro c hc
  have := @type_of_mem_take_map ty (fun s => ({ type := ty, cols := g s } : Chart))
    (fun s => rfl) n l c hc
  simp [this, hne]

theorem gen_filter_distribution (t : Table) :
    (generate_visualizations t).filter (fun c => c.type == ChartType.distribution) =
      ((numericNames t).take 5).map
        (fun c => { type := ChartType.distribution, cols := [c] }) := by
  simp only [generate_visualizations, List.filter_append]
  by_cases h1 : 0 < (numericNames t).length <;>
    by_cases h2 : 1 < (numericNames t).length <;>
      by_cases h3 : 0 < (objNames t).length <;>
        by_cases h4 : 2 ≤ (numericNames t).length <;>
          by_cases h5 : 0 < (dtNames t).length <;>
            simp_all [filter_take_map_mk_eq, filter_take_map_mk_ne, List.filter_cons,
              List.length_eq_zero] <;>
    first
      | omega
      | (intro a ha
         rcases List.mem_map.1 (List.take_subset _ _ ha) with ⟨s, hs, h6⟩
         subst h6
         simp)
      | (split_ifs <;> first | omega | simp)

theorem gen_filter_correlation (t : Table) :
    (generate_visualizations t).filter (fun c => c.type == ChartType.correlation) =
      (if 1 < (numericNames t).length then
        [{ type := ChartType.correlation, cols := numericNames t }] else []) := by
  simp only [generate_visualizations, List.filter_append]
  by_cases h1 : 0 < (numericNames t).length <;>
    by_cases h2 : 1 < (numericNames t).length <;>
      by_cases h3 : 0 < (objNames t).length <;>
        by_cases h4 : 2 ≤ (numericNames t).length <;>
          by_cases h5 : 0 < (dtNames t).length <;>
            simp_all [filter_take_map_mk_eq, filter_take_map_mk_ne, List.filter_cons,
              List.length_eq_zero] <;>
    first
      | omega
      | (intro a ha
         rcases List.mem_map.1 (List.take_subset _ _ ha) with ⟨s, hs, h6⟩
         subst h6
         simp)
      | (split_ifs <;> first | omega | simp)

theorem gen_filter_boxplot (t : Table) :
    (generate_visualizations t).filter (fun c => c.type == ChartType.boxplot) =
      (if 0 < (numericNames t).length then
        [{ type := ChartType.boxplot, cols := (numericNames t).take 5 }] else []) := by
  simp only [generate_visualizations, List.filter_append]
  by_cases h1 : 0 < (numericNames t).length <;>
    by_cases h2 : 1 < (numericNames t).length <;>
      by_cases h3 : 0 < (objNames t).length <;>
        by_cases h4 : 2 ≤ (numericNames t).length <;>
          by_cases h5 : 0 < (dtNames t).length <;>
            simp_all [filter_take_map_mk_eq, filter_take_map_mk_ne, List.filter_cons,
              List.length_eq_zero] <;>
    first
      | omega
      | (intro a ha
         rcases List.mem_map.1 (List.take_subset _ _ ha) with ⟨s, hs, h6⟩
         subst h6
         simp)
      | (split_ifs <;> first | omega | simp)

theorem gen_filter_categorical (t : Table) :
    (generate_visualizations t).filter (fun c => c.type == ChartType.categorical) =
      ((objNames t).take 3).map
        (fun c => { type := ChartType.categorical, cols := [c] }) := by
  simp only [generate_visualizations, List.filter_append]
  by_cases h1 : 0 < (numericNames t).length <;>
    by_cases h2 : 1 < (numericNames t).length <;>
      by_cases h3 : 0 < (objNames t).length <;>
        by_cases h4 : 2 ≤ (numericNames t).length <;>
          by_cases h5 : 0 < (dtNames t).length <;>
            simp_all [filter_take_map_mk_eq, filter_take_map_mk_ne, List.filter_cons,
              List.length_eq_zero] <;>
    first
      | omega
      | (intro a ha
         rcases List.mem_map.1 (List.take_subset _ _ ha) with ⟨s, hs, h6⟩
         subst h6
         simp)
      | (split_ifs <;> first | omega | simp)

theorem gen_filter_scatter (t : Table) :
    (generate_visualizations t).filter (fun c => c.type == ChartType.scatter_matrix) =
      (if 2 ≤ (numericNames t).length then
        [{ type := ChartType.scatter_matrix, cols := (numericNames t).take 4 }] else []) := by
  simp only [generate_visualizations, List.filter_append]
  by_cases h1 : 0 < (numericNames t).length <;>
    by_cases h2 : 1 < (numericNames t).length <;>
      by_cases h3 : 0 < (objNames t).length <;>
        by_cases h4 : 2 ≤ (numericNames t).length <;>
          by_cases h5 : 0 < (dtNames t).length <;>
            simp_all [filter_take_map_mk_eq, filter_take_map_mk_ne, List.filter_cons,
              List.length_eq_zero] <;>
    first
      | omega
      | (intro a ha
         rcases List.mem_map.1 (List.take_subset _ _ ha) with ⟨s, hs, h6⟩
         subst h6
         simp)
      | (split_ifs <;> first | omega | simp)

theorem gen_filter_timeseries (t : Table) :
    (generate_visualizations t).filter (fun c => c.type == ChartType.timeseries) =
      (if 0 < (dtNames t).length ∧ 0 < (numericNames t).length then
        [{ type := ChartType.timeseries,
           cols := [(dtNames t).headD "", (numericNames t).headD ""] }] else []) := by
  simp only [generate_visualizations, List.filter_append]
  by_cases h1 : 0 < (numericNames t).length <;>
    by_cases h2 : 1 < (numericNames t).length <;>
      by_cases h3 : 0 < (objNames t).length <;>
        by_cases h4 : 2 ≤ (numericNames t).length <;>
          by_cases h5 : 0 < (dtNames t).length <;>
            simp_all [filter_take_map_mk_eq, filter_take_map_mk_ne, List.filter_cons,
              List.length_eq_zero] <;>
    first
      | omega
      | (intro a ha
         rcases List.mem_map.1 (List.take_subset _ _ ha) with ⟨s, hs, h6⟩
         subst h6
         simp)
      | (split_ifs <;> first | omega | simp)

/-- Shorthands for building concrete example tables. -/
def vS (s : String) : Cell := some (.str s)

def vN (q : ℚ) : Cell := some (.num q)

/-- A table with exactly one numeric column, one categorical column and no
datetime column. -/
def Tgate : Table :=
  { names := ["x", "c"], dtypes := [.numeric, .obj],
    rows := [[vN 1, vS "u"], [vN 3, vS "w"]] }

/-- C8: on a table with exactly 1 numeric column and 0 datetime columns,
`generate_visualizations` emits no correlation-heatmap chart, no
scatter-matrix chart and no time-series chart, but exactly one box-plot
chart; an ungated family contributes zero specs (and the planner is a total
function, so no error is possible). -/
theorem chart_family_gating (t : Table)
    (hn : (numericIdx t).length = 1) (hd : (dtIdx t).length = 0) :
    countCharts t ChartType.correlation = 0 ∧
    countCharts t ChartType.scatter_matrix = 0 ∧
    countCharts t ChartType.timeseries = 0 ∧
    countCharts t ChartType.boxplot = 1 := by
  have hn' : (numericNames t).length = 1 := by simp [numericNames, hn]
  have hd' : (dtNames t).length = 0 := by simp [dtNames, hd]
  unfold countCharts
  rw [gen_filter_correlation, gen_filter_scatter, gen_filter_timeseries, gen_filter_boxplot]
  simp [hn', hd']

theorem chart_family_gating_witness :
    countCharts Tgate ChartType.correlation = 0 ∧
    countCharts Tgate ChartType.scatter_matrix = 0 ∧
    countCharts Tgate ChartType.timeseries = 0 ∧
    countCharts Tgate ChartType.boxplot = 1 :=
  chart_family_gating Tgate (by decide) (by decide)

/-- C9: the distribution and categorical chart families are hard slices of
the column lists in original left-to-right order: the columns charted are
exactly the first 5 numeric (resp. first 3 categorical) column names, and
hence at most 5 distribution charts and at most 3 categorical bar charts
are ever emitted. -/
theorem chart_caps_hard_slice (t : Table) :
    ((generate_visualizations t).filter (fun c => c.type == ChartType.distribution)).map
        Chart.cols = ((numericNames t).take 5).map (fun c => [c]) ∧
    ((generate_visualizations t).filter (fun c => c.type == ChartType.categorical)).map
        Chart.cols = ((objNames t).take 3).map (fun c => [c]) ∧
    countCharts t ChartType.distribution ≤ 5 ∧
    countCharts t ChartType.categorical ≤ 3 := by
  refine ⟨?_, ?_, ?_, ?_⟩
  · rw [gen_filter_distribution]
    simp [Function.comp_def]
  · rw [gen_filter_categorical]
    simp [Function.comp_def]
  · unfold countCharts
    rw [gen_filter_distribution]
    simp
  · unfold countCharts
    rw [gen_filter_categorical]
    simp

/-! ### Mode tie-break lemmas -/

theorem leChars_refl (a : List Char) : leChars a a = true := by
  induction a with
  | nil => rfl
  | cons x as ih => simp [leChars, ih]

theorem leChars_total (a b : List Char) : leChars a b = true ∨ leChars b a = true := by
  induction a generalizing b with
  | nil => left; rfl
  | cons x as ih =>
    cases b with
    | nil => right; rfl
    | cons y bs =>
      by_cases h1 : x.toNat < y.toNat
      · left; simp [leChars, h1]
      · by_cases h2 : y.toNat < x.toNat
        · right; simp [leChars, h2]
        · rcases ih bs with h | h
          · left; simp [leChars, h1, h2, h]
          · right; simp [leChars, h1, h2, h]

theorem leChars_trans (a b c : List Char) (h1 : leChars a b = true)
    (h2 : leChars b c = true) : leChars a c = true := by
  induction a generalizing b c with
  | nil => rfl
  | cons x as ih =>
    cases b with
    | nil => simp [leChars] at h1
    | cons y bs =>
      cases c with
      | nil => simp [leChars] at h2
      | cons z cs =>
        simp only [leChars] at h1 h2 ⊢
        by_cases hxy : x.toNat < y.toNat
        · by_cases hyz : y.toNat < z.toNat
          · simp [Nat.lt_trans hxy hyz]
          · by_cases hzy : z.toNat < y.toNat
            · simp [hyz, hzy] at h2
            · have heq : y.toNat = z.toNat :=
                Nat.le_antisymm (Nat.not_lt.1 hzy) (Nat.not_lt.1 hyz)
              simp [heq ▸ hxy]
        · by_cases hyx : y.toNat < x.toNat
          · simp [hxy, hyx] at h1
          · have hxyeq : x.toNat = y.toNat :=
              Nat.le_antisymm (Nat.not_lt.1 hyx) (Nat.not_lt.1 hxy)
            simp only [hxy, hyx, if_false, ite_false] at h1
            by_cases hyz : y.toNat < z.toNat
            · have hlt : x.toNat < z.toNat := by omega
              simp [hlt]
            · by_cases hzy : z.toNat < y.toNat
              · simp [hyz, hzy] at h2
              · simp only [hyz, hzy, if_false, ite_false] at h2
                have hyzeq : y.toNat = z.toNat :=
                  Nat.le_antisymm (Nat.not_lt.1 hzy) (Nat.not_lt.1 hyz)
                have hxz : ¬ x.toNat < z.toNat := by omega
                have hzx : ¬ z.toNat < x.toNat := by omega
                simp [hxz, hzx, ih bs cs h1 h2]

instance : IsTotal String strLe :=
  ⟨fun a b => leChars_total a.data b.data⟩

instance : IsTrans String strLe :=
  ⟨fun _ _ _ h1 h2 => leChars_trans _ _ _ h1 h2⟩

theorem strLe_refl (a : String) : strLe a a := leChars_refl a.data

theorem foldr_max_mem (ns : List ℕ) (h : ns ≠ []) : ns.foldr max 0 ∈ ns := by
  induction ns with
  | nil => exact absurd rfl h
  | cons x xs ih =>
    cases xs with
    | nil => simp
    | cons y ys =>
      rcases Nat.le_total x ((y :: ys).foldr max 0) with h1 | h1
      · have heq : (x :: y :: ys).foldr max 0 = (y :: ys).foldr max 0 := by
          rw [List.foldr_cons, Nat.max_eq_right h1]
        rw [heq]
        exact List.mem_cons_of_mem _ (ih (by simp))
      · have heq : (x :: y :: ys).foldr max 0 = x := by
          rw [List.foldr_cons, Nat.max_eq_left h1]
        rw [heq]
        exact List.mem_cons_self _ _

theorem modeTies_ne_nil (l : List String) (h : l ≠ []) : modeTies l ≠ [] := by
  have hd : l.dedup ≠ [] := by
    simpa [List.dedup_eq_nil] using h
  have hmem : maxCount l ∈ (l.dedup).map (fun v => l.count v) :=
    foldr_max_mem _ (by simpa using hd)
  rcases List.mem_map.1 hmem with ⟨v, hv, hcnt⟩
  intro hnil
  have hvt : v ∈ modeTies l := by
    simp [modeTies, hv, hcnt]
  rw [hnil] at hvt
  exact absurd hvt (List.not_mem_nil v)

/-- C1 (amended): the mode tie-break of `clean_data` is ascending sort
order, not first-seen: the fill value `modeFill` chosen for a nonempty
categorical column is a value of maximum frequency, and it precedes every
other maximum-frequency value in the code-point order `strLe` (pandas
`Series.mode` returns the tied values sorted ascending and `clean_data`
takes `mode()[0]`). -/
theorem mode_tie_break_sorted (l : List String) (h : l ≠ []) :
    modeFill l ∈ modeTies l ∧
    l.count (modeFill l) = maxCount l ∧
    ∀ v ∈ modeTies l, strLe (modeFill l) v := by
  have hties := modeTies_ne_nil l h
  have hperm := List.perm_insertionSort strLe (modeTies l)
  have hsorted := List.sorted_insertionSort strLe (modeTies l)
  have hms : List.insertionSort strLe (modeTies l) ≠ [] := by
    intro hnil
    exact hties (List.Perm.eq_nil (hnil ▸ hperm.symm))
  obtain ⟨a, as, heq⟩ := List.exists_cons_of_ne_nil hms
  have hfill : modeFill l = a := by
    simp [modeFill, modesSorted, heq]
  have hmem : modeFill l ∈ modeTies l := by
    rw [hfill]
    exact hperm.mem_iff.1 (by rw [heq]; exact List.mem_cons_self a as)
  refine ⟨hmem, ?_, ?_⟩
  · simpa using (List.mem_filter.1 hmem).2
  · intro v hv
    rw [hfill]
    have hv2 : v ∈ List.insertionSort strLe (modeTies l) := hperm.mem_iff.2 hv
    rw [heq] at hv2
    rcases List.mem_cons.1 hv2 with h2 | h2
    · rw [h2]
      exact strLe_refl a
    · have hs := hsorted
      rw [heq] at hs
      exact List.rel_of_sorted_cons hs v h2

theorem mode_tie_break_sorted_witness :
    modeFill ["B", "A", "B", "A"] ∈ modeTies ["B", "A", "B", "A"] ∧
    (["B", "A", "B", "A"] : List String).count (modeFill ["B", "A", "B", "A"]) =
      maxCount ["B", "A", "B", "A"] ∧
    ∀ v ∈ modeTies ["B", "A", "B", "A"], strLe (modeFill ["B", "A", "B", "A"]) v :=
  mode_tie_break_sorted ["B", "A", "B", "A"] (by decide)

/-- A two-column table whose `cat` column has observed values B,A,B,A (A
and B tied at frequency 2) and one missing cell; the `id` column keeps the
rows distinct so no duplicate-row dropping interferes. -/
def Tmode : Table :=
  { names := ["id", "cat"], dtypes := [.obj, .obj],
    rows := [[vS "1", vS "B"], [vS "2", vS "A"], [vS "3", vS "B"], [vS "4", vS "A"],
             [vS "5", none]] }

/-- C1 counterexample: on observed values `["B","A","B","A"]` (A and B tied
at count 2) `clean_data` fills the missing cell with `"A"`, the
ascending-sort first mode, not the first-seen `"B"` the claim predicts. -/
theorem mode_tie_break_counterexample :
    observedStrs (colCells (cleanPrep Tmode).rows 1) = ["B", "A", "B", "A"] ∧
    clean_data Tmode = .ok
      { names := ["id", "cat"], dtypes := [.obj, .obj],
        rows := [[vS "1", vS "B"], [vS "2", vS "A"], [vS "3", vS "B"], [vS "4", vS "A"],
                 [vS "5", vS "A"]] } ∧
    (Val.str "A") ≠ (Val.str "B") :=
  ⟨rfl, rfl, by decide⟩

/-! ### Degenerate statistics (profiler) -/

theorem sampleVar_replicate (n : ℕ) (q : ℚ) (hn : 2 ≤ n) :
    sampleVar (List.replicate n q) = some 0 := by
  have hn0 : (n : ℚ) ≠ 0 := Nat.cast_ne_zero.2 (by omega)
  unfold sampleVar
  rw [if_neg (by simp; omega)]
  have hX : (List.replicate n q).sum / ((List.replicate n q).length : ℚ) = q := by
    rw [List.sum_replicate, List.length_replicate, nsmul_eq_mul]
    field_simp
  simp [hX, List.map_replicate, List.sum_replicate]
  left
  right
  field_simp

/-- A single-valued numeric column: `describe()` reports its std as NaN. -/
def Tstd : Table := { names := ["x"], dtypes := [.numeric], rows := [[vN 5]] }

/-- C3 counterexample: the profiler's numeric summary of a single-valued
column reports `NaN` for the standard deviation (pandas `std` with `ddof=1`
divides by `n - 1 = 0`), not the claimed `0`; `std_sq` is the square of the
reported std, `none` meaning NaN. -/
theorem single_value_std_counterexample :
    (analyze_data Tstd).numeric_summary = [("x", describeList [5])] ∧
    (describeList [5]).std_sq = none ∧
    (none : Option ℚ) ≠ some 0 :=
  ⟨rfl, rfl, by decide⟩

/-- C3 (amended): the profiler's numeric summary is a total function, so
degenerate inputs produce values, never an error; but the degenerate values
are NaN, not 0: the reported std is NaN exactly when the column has fewer
than two values (in particular one single value gives NaN, not 0), while
`n ≥ 2` copies of the same value give std = 0 (zero variance). -/
theorem degenerate_std (l : List ℚ) :
    ((describeList l).std_sq = none ↔ l.length ≤ 1) ∧
    (∀ q : ℚ, l = List.replicate l.length q → 2 ≤ l.length →
      (describeList l).std_sq = some 0) := by
  constructor
  · show sampleVar l = none ↔ _
    unfold sampleVar
    split <;> simp_all
  · intro q hrep hlen
    show sampleVar l = some 0
    conv_lhs => rw [hrep]
    exact sampleVar_replicate _ q (by omega)

theorem degenerate_std_witness :
    (describeList [(2 : ℚ), 2]).std_sq = some 0 :=
  (degenerate_std [2, 2]).2 2 rfl (by decide)

/-! ### Correlation diagonal -/

theorem zipWith_mul_self (l : List ℚ) :
    List.zipWith (· * ·) l l = l.map (fun d => d ^ 2) := by
  induction l with
  | nil => rfl
  | cons a l ih => simp [List.zipWith_cons_cons, ih, pow_two]

theorem corrEntry_self_num (xs : List ℚ) : (corrEntry xs xs).num = sumSq xs := by
  show (List.zipWith (· * ·) (devs xs) (devs xs)).sum = sumSq xs
  rw [zipWith_mul_self]
  rfl

theorem sumSq_nonneg (xs : List ℚ) : 0 ≤ sumSq xs := by
  refine List.sum_nonneg ?_
  intro x hx
  rcases List.mem_map.1 hx with ⟨d, _, h⟩
  rw [← h]
  exact sq_nonneg d

/-- C4 (amended): in the correlation matrix the profiler computes (present
when ≥ 2 numeric columns exist), the diagonal entry of a numeric column is
`1.0` when the column has nonzero variance (`sumSq ≠ 0`), but is `NaN` —
not `1.0` — when the column is constant (zero variance): pandas divides the
covariance by the product of standard deviations, which is `0/0` there. -/
theorem corr_diagonal (t : Table) (j : ℕ) (hj : j ∈ numericIdx t)
    (hgate : 1 < (numericIdx t).length) :
    ∃ row, (colName t j, row) ∈ (analyze_data t).correlations ∧
      (colName t j, corrEntry (colNums t j) (colNums t j)) ∈ row ∧
      (sumSq (colNums t j) ≠ 0 → corrEqOne (corrEntry (colNums t j) (colNums t j))) ∧
      (sumSq (colNums t j) = 0 → corrIsNaN (corrEntry (colNums t j) (colNums t j))) := by
  refine ⟨(numericIdx t).map (fun k =>
    (colName t k, corrEntry (colNums t j) (colNums t k))), ?_, ?_, ?_, ?_⟩
  · show (colName t j, _) ∈
      (if 1 < (numericIdx t).length then
        (numericIdx t).map (fun i =>
          (colName t i, (numericIdx t).map (fun k =>
            (colName t k, corrEntry (colNums t i) (colNums t k))))) else [])
    rw [if_pos hgate]
    exact List.mem_map.2 ⟨j, hj, rfl⟩
  · exact List.mem_map.2 ⟨j, hj, rfl⟩
  · intro hne
    refine ⟨?_, ?_, ?_⟩
    · show sumSq (colNums t j) * sumSq (colNums t j) ≠ 0
      exact mul_ne_zero hne hne
    · rw [corrEntry_self_num]
      exact sumSq_nonneg _
    · rw [corrEntry_self_num]
      show sumSq (colNums t j) ^ 2 = sumSq (colNums t j) * sumSq (colNums t j)
      ring
  · intro h0
    show sumSq (colNums t j) * sumSq (colNums t j) = 0
    rw [h0, zero_mul]

/-- Two numeric columns: `a` constant (zero variance), `b` not. -/
def Tcorr : Table :=
  { names := ["a", "b"], dtypes := [.numeric, .numeric],
    rows := [[vN 1, vN 1], [vN 1, vN 2]] }

/-- C4 counterexample: for the zero-variance numeric column `a` the
correlation matrix's diagonal entry is NaN (`0 / sqrt 0`), not `1.0`. -/
theorem corr_diagonal_counterexample :
    corrAt (analyze_data Tcorr) "a" "a" = some (corrEntry [1, 1] [1, 1]) ∧
    corrIsNaN (corrEntry [1, 1] [1, 1]) ∧
    ¬ corrEqOne (corrEntry [1, 1] [1, 1]) := by
  refine ⟨rfl, ?_, ?_⟩
  · show (corrEntry [1, 1] [1, 1]).den2 = 0
    norm_num [corrEntry, sumSq, devs, List.sum_cons, List.sum_nil]
  · intro h
    exact h.1 (by norm_num [corrEntry, sumSq, devs, List.sum_cons, List.sum_nil])

theorem corr_diagonal_witness :
    ∃ row, (colName Tcorr 1, row) ∈ (analyze_data Tcorr).correlations ∧
      (colName Tcorr 1, corrEntry (colNums Tcorr 1) (colNums Tcorr 1)) ∈ row ∧
      (sumSq (colNums Tcorr 1) ≠ 0 →
        corrEqOne (corrEntry (colNums Tcorr 1) (colNums Tcorr 1))) ∧
      (sumSq (colNums Tcorr 1) = 0 →
        corrIsNaN (corrEntry (colNums Tcorr 1) (colNums Tcorr 1))) :=
  corr_diagonal Tcorr 1 (by decide) (by decide)

/-! ### Structural lemmas about the cleaning pipeline -/

theorem mem_dedupRowsAux {x : List Cell} :
    ∀ {l seen : List (List Cell)}, x ∈ dedupRowsAux seen l ↔ x ∈ l ∧ x ∉ seen := by
  intro l
  induction l with
  | nil => intro seen; simp [dedupRowsAux]
  | cons r rs ih =>
    intro seen
    by_cases hr : r ∈ seen
    · rw [dedupRowsAux, if_pos hr, ih]
      by_cases hx : x = r
      · subst hx
        simp [hr]
      · simp [hx]
    · rw [dedupRowsAux, if_neg hr]
      by_cases hx : x = r
      · subst hx
        simp [hr]
      · simp only [List.mem_cons, hx, false_or, ih]
        try simp [hx]

theorem mem_dedupRows {x : List Cell} {l : List (List Cell)} :
    x ∈ dedupRows l ↔ x ∈ l := by
  simp [dedupRows, mem_dedupRowsAux]

theorem dedupRowsAux_nodup :
    ∀ (l seen : List (List Cell)), (dedupRowsAux seen l).Nodup := by
  intro l
  induction l with
  | nil => intro seen; simp [dedupRowsAux]
  | cons r rs ih =>
    intro seen
    by_cases hr : r ∈ seen
    · rw [dedupRowsAux, if_pos hr]
      exact ih seen
    · rw [dedupRowsAux, if_neg hr]
      refine List.Nodup.cons ?_ (ih (r :: seen))
      intro hmem
      exact (mem_dedupRowsAux.1 hmem).2 (List.mem_cons_self _ _)

theorem dedupRows_nodup (l : List (List Cell)) : (dedupRows l).Nodup :=
  dedupRowsAux_nodup l []

theorem dedupRowsAux_eq_self :
    ∀ (l seen : List (List Cell)), l.Nodup → (∀ x ∈ l, x ∉ seen) →
      dedupRowsAux seen l = l := by
  intro l
  induction l with
  | nil => intro seen _ _; rfl
  | cons r rs ih =>
    intro seen hnd hsub
    rw [dedupRowsAux, if_neg (hsub r (List.mem_cons_self _ _))]
    congr 1
    refine ih (r :: seen) (List.Nodup.of_cons hnd) ?_
    intro x hx
    simp only [List.mem_cons, not_or]
    exact ⟨fun he => (List.nodup_cons.1 hnd).1 (he ▸ hx), hsub x (List.mem_cons_of_mem _ hx)⟩

theorem dedupRows_eq_self {l : List (List Cell)} (h : l.Nodup) : dedupRows l = l :=
  dedupRowsAux_eq_self l [] h (by simp)

theorem dedupRows_eq_nil {l : List (List Cell)} : dedupRows l = [] ↔ l = [] := by
  constructor
  · intro h
    cases l with
    | nil => rfl
    | cons r rs =>
      exfalso
      have : r ∈ dedupRows (r :: rs) := mem_dedupRows.2 (List.mem_cons_self _ _)
      rw [h] at this
      exact List.not_mem_nil _ this
  · intro h
    rw [h]
    rfl

theorem selIdx_eq_map {α : Type} (ks : List ℕ) (l : List α) (d : α)
    (h : ∀ k ∈ ks, k < l.length) :
    selIdx ks l = ks.map (fun k => l.getD k d) := by
  induction ks with
  | nil => rfl
  | cons k ks ih =>
    have hk := h k (List.mem_cons_self _ _)
    show List.filterMap (fun j => l[j]?) (k :: ks) = _
    rw [List.filterMap_cons]
    rw [List.getElem?_eq_getElem hk]
    simp only [List.map_cons]
    rw [List.getD_eq_getElem l d hk]
    congr 1
    exact ih (fun k hk => h k (List.mem_cons_of_mem _ hk))

theorem selIdx_length {α : Type} (ks : List ℕ) (l : List α)
    (h : ∀ k ∈ ks, k < l.length) :
    (selIdx ks l).length = ks.length := by
  rcases l with _ | ⟨a, l⟩
  · cases ks with
    | nil => rfl
    | cons k ks => exact absurd (h k (List.mem_cons_self _ _)) (by simp)
  · rw [selIdx_eq_map ks _ a h, List.length_map]

theorem selIdx_getD {α : Type} (ks : List ℕ) (l : List α) (d : α) (i : ℕ)
    (hi : i < ks.length) (h : ∀ k ∈ ks, k < l.length) :
    (selIdx ks l).getD i d = l.getD (ks.getD i 0) d := by
  rw [selIdx_eq_map ks l d h]
  rw [List.getD_eq_getElem _ d (by simpa using hi), List.getElem_map]
  congr 1
  rw [List.getD_eq_getElem _ 0 hi]

theorem keepColIdx_lt (t : Table) {k : ℕ} (hk : k ∈ keepColIdx t) :
    k < t.names.length := by
  have := List.mem_filter.1 hk
  simpa using this.1

theorem keepColIdx_nodup (t : Table) : (keepColIdx t).Nodup :=
  List.Nodup.filter _ (List.nodup_range _)

theorem keepColIdx_observed (t : Table) {k : ℕ} (hk : k ∈ keepColIdx t) :
    ∃ r ∈ t.rows, (r.getD k none).isSome := by
  have := (List.mem_filter.1 hk).2
  simpa using this

theorem getD_mem {α : Type} (l : List α) (j : ℕ) (d : α) (h : j < l.length) :
    l.getD j d ∈ l := by
  rw [List.getD_eq_getElem l d h]
  exact List.getElem_mem h

theorem dropEmptyRows_sub (t : Table) : ∀ r ∈ (dropEmptyRows t).rows, r ∈ t.rows := by
  intro r hr
  exact List.mem_of_mem_filter hr

theorem keepColIdx_lt' (t : Table) {k : ℕ} (hk : k ∈ keepColIdx (dropEmptyRows t)) :
    k < t.names.length :=
  keepColIdx_lt (dropEmptyRows t) hk

theorem mem_cleanPrep_rows {t : Table} {x : List Cell} :
    x ∈ (cleanPrep t).rows ↔
      ∃ r ∈ (dropEmptyRows t).rows, x = selIdx (keepColIdx (dropEmptyRows t)) r := by
  show x ∈ dedupRows (((dropEmptyRows t).rows).map (selIdx (keepColIdx (dropEmptyRows t)))) ↔ _
  rw [mem_dedupRows, List.mem_map]
  constructor
  · rintro ⟨r, hr, h⟩
    exact ⟨r, hr, h.symm⟩
  · rintro ⟨r, hr, h⟩
    exact ⟨r, hr, h.symm⟩

theorem cleanPrep_WF (t : Table) (h : t.WF) : (cleanPrep t).WF := by
  obtain ⟨hdt, hrows⟩ := h
  have hklt : ∀ k ∈ keepColIdx (dropEmptyRows t), k < t.names.length :=
    fun k hk => keepColIdx_lt' t hk
  have hkdt : ∀ k ∈ keepColIdx (dropEmptyRows t), k < t.dtypes.length := by
    intro k hk
    rw [hdt]
    exact hklt k hk
  have hnames :
      (cleanPrep t).names.length = (keepColIdx (dropEmptyRows t)).length :=
    selIdx_length _ _ hklt
  refine ⟨?_, ?_⟩
  · show (selIdx (keepColIdx (dropEmptyRows t)) t.dtypes).length = _
    rw [selIdx_length _ _ hkdt, hnames]
  · intro r' hr'
    obtain ⟨r, hr, rfl⟩ := mem_cleanPrep_rows.1 hr'
    have hrt : r ∈ t.rows := dropEmptyRows_sub t r hr
    have hlen : r.length = t.names.length := (hrows r hrt).1
    have hkr : ∀ k ∈ keepColIdx (dropEmptyRows t), k < r.length := by
      intro k hk
      rw [hlen]
      exact hklt k hk
    constructor
    · rw [selIdx_length _ _ hkr, hnames]
    · intro j hj
      rw [List.mem_range, hnames] at hj
      show cellOkB ((selIdx (keepColIdx (dropEmptyRows t)) t.dtypes).getD j .obj) _ = true
      rw [selIdx_getD _ _ _ _ hj hkdt, selIdx_getD _ _ _ _ hj hkr]
      have hkmem : (keepColIdx (dropEmptyRows t)).getD j 0 ∈ keepColIdx (dropEmptyRows t) :=
        getD_mem _ j 0 hj
      exact (hrows r hrt).2 _ (List.mem_range.2 (hklt _ hkmem))

theorem cleanPrep_col_observed (t : Table) (h : t.WF) :
    ∀ j < (cleanPrep t).names.length,
      ∃ r' ∈ (cleanPrep t).rows, (r'.getD j none).isSome = true := by
  obtain ⟨hdt, hrows⟩ := h
  intro j hj
  have hklt : ∀ k ∈ keepColIdx (dropEmptyRows t), k < t.names.length :=
    fun k hk => keepColIdx_lt' t hk
  have hnames :
      (cleanPrep t).names.length = (keepColIdx (dropEmptyRows t)).length :=
    selIdx_length _ _ hklt
  rw [hnames] at hj
  have hkmem : (keepColIdx (dropEmptyRows t)).getD j 0 ∈ keepColIdx (dropEmptyRows t) :=
    getD_mem _ j 0 hj
  obtain ⟨r, hr, hobs⟩ := keepColIdx_observed _ hkmem
  refine ⟨selIdx (keepColIdx (dropEmptyRows t)) r, mem_cleanPrep_rows.2 ⟨r, hr, rfl⟩, ?_⟩
  have hrt : r ∈ t.rows := dropEmptyRows_sub t r hr
  have hkr : ∀ k ∈ keepColIdx (dropEmptyRows t), k < r.length := by
    intro k hk
    rw [(hrows r hrt).1]
    exact hklt k hk
  rw [selIdx_getD _ _ _ _ hj hkr]
  exact hobs

/-- Length-only part of well-formedness, preserved by every stage. -/
def Table.LenOk (t : Table) : Prop :=
  t.dtypes.length = t.names.length ∧ ∀ r ∈ t.rows, r.length = t.names.length

theorem WF_lenOk {t : Table} (h : t.WF) : t.LenOk :=
  ⟨h.1, fun r hr => (h.2 r hr).1⟩

theorem fillsOf_length (t : Table) : (fillsOf t).length = t.names.length := by
  simp [fillsOf]

theorem promoFlags_length (t : Table) : (promoFlags t).length = t.dtypes.length := by
  simp [promoFlags]

theorem fillTable_lenOk {t : Table} (h : t.LenOk) : (fillTable t).LenOk := by
  refine ⟨h.1, ?_⟩
  intro r' hr'
  obtain ⟨r, hr, rfl⟩ := List.mem_map.1 hr'
  show (List.zipWith fillCell r (fillsOf t)).length = t.names.length
  rw [List.length_zipWith, fillsOf_length, h.2 r hr, Nat.min_self]

theorem promoteTable_lenOk {t : Table} (h : t.LenOk) : (promoteTable t).LenOk := by
  constructor
  · show (List.zipWith _ (promoFlags t) t.dtypes).length = t.names.length
    rw [List.length_zipWith, promoFlags_length, Nat.min_self, h.1]
  · intro r' hr'
    obtain ⟨r, hr, rfl⟩ := List.mem_map.1 hr'
    show (List.zipWith _ (promoFlags t) r).length = t.names.length
    rw [List.length_zipWith, promoFlags_length, h.1, h.2 r hr, Nat.min_self]

theorem clean_ok_eq {t u : Table} (h : clean_data t = .ok u) :
    u = promoteTable (fillTable (cleanPrep t)) ∧ (cleanPrep t).names.Nodup := by
  by_cases hnd : (cleanPrep t).names.Nodup
  · simp only [clean_data] at h
    rw [if_pos hnd] at h
    injection h with h2
    exact ⟨h2.symm, hnd⟩
  · simp only [clean_data] at h
    rw [if_neg hnd] at h
    cases h

theorem fillValue_numeric_isSome (cs : List Cell) (h : observedNums cs ≠ []) :
    (fillValue Dtype.numeric cs).isSome = true := by
  cases hobs2 : observedNums cs with
  | nil => exact absurd hobs2 h
  | cons a as => simp [fillValue, hobs2]

theorem fillValue_datetime_isSome (cs : List Cell) (h : observedInsts cs ≠ []) :
    (fillValue Dtype.datetime cs).isSome = true := by
  cases hobs2 : observedInsts cs with
  | nil => exact absurd hobs2 h
  | cons a as => simp [fillValue, hobs2]

theorem fillValue_obj_isSome (cs : List Cell) : (fillValue .obj cs).isSome = true := rfl

theorem fillsOf_all_some (t : Table) (hWF : t.WF)
    (hobs : ∀ j < t.names.length, ∃ r ∈ t.rows, (r.getD j none).isSome = true) :
    ∀ f ∈ fillsOf t, f.isSome = true := by
  intro f hf
  obtain ⟨j, hj, rfl⟩ := List.mem_map.1 hf
  rw [List.mem_range] at hj
  obtain ⟨r, hr, hcell⟩ := hobs j hj
  have htyped := (hWF.2 r hr).2 j (List.mem_range.2 hj)
  cases hdt : t.dtypes.getD j .obj with
  | obj => exact fillValue_obj_isSome _
  | numeric =>
    rw [hdt] at htyped
    have hq : ∃ q, r.getD j none = some (.num q) := by
      cases hc : r.getD j none with
      | none => rw [hc] at hcell; simp at hcell
      | some v =>
        cases v with
        | num q => exact ⟨q, rfl⟩
        | str s => rw [hc] at htyped; simp [cellOkB] at htyped
        | inst q => rw [hc] at htyped; simp [cellOkB] at htyped
    obtain ⟨q, hq⟩ := hq
    have hqmem : q ∈ observedNums (colCells t.rows j) :=
      List.mem_filterMap.2 ⟨some (.num q), List.mem_map.2 ⟨r, hr, hq⟩, rfl⟩
    exact fillValue_numeric_isSome _
      (fun hnil => absurd (hnil ▸ hqmem) (List.not_mem_nil q))
  | datetime =>
    rw [hdt] at htyped
    have hq : ∃ q, r.getD j none = some (.inst q) := by
      cases hc : r.getD j none with
      | none => rw [hc] at hcell; simp at hcell
      | some v =>
        cases v with
        | inst q => exact ⟨q, rfl⟩
        | str s => rw [hc] at htyped; simp [cellOkB] at htyped
        | num q => rw [hc] at htyped; simp [cellOkB] at htyped
    obtain ⟨q, hq⟩ := hq
    have hqmem : q ∈ observedInsts (colCells t.rows j) :=
      List.mem_filterMap.2 ⟨some (.inst q), List.mem_map.2 ⟨r, hr, hq⟩, rfl⟩
    exact fillValue_datetime_isSome _
      (fun hnil => absurd (hnil ▸ hqmem) (List.not_mem_nil q))

theorem zipWith_fillCell_isSome :
    ∀ (r fills : List Cell), (∀ f ∈ fills, f.isSome = true) →
      ∀ c ∈ List.zipWith fillCell r fills, c.isSome = true := by
  intro r
  induction r with
  | nil =>
    intro fills _ c hc
    simp at hc
  | cons a r ih =>
    intro fills hf c hc
    cases fills with
    | nil => simp at hc
    | cons f fs =>
      rw [List.zipWith_cons_cons] at hc
      rcases List.mem_cons.1 hc with h2 | h2
      · subst h2
        cases a with
        | some v => rfl
        | none => exact hf f (List.mem_cons_self _ _)
      · exact ih fs (fun g hg => hf g (List.mem_cons_of_mem _ hg)) c h2

theorem fillTable_all_some (t : Table)
    (hfills : ∀ f ∈ fillsOf t, f.isSome = true) :
    ∀ r' ∈ (fillTable t).rows, ∀ c ∈ r', c.isSome = true := by
  intro r' hr'
  obtain ⟨r, _, rfl⟩ := List.mem_map.1 hr'
  exact zipWith_fillCell_isSome r _ hfills

instance : DecidablePred Table.WF := fun t => by
  unfold Table.WF
  infer_instance

theorem promoFlags_getD (t : Table) (j : ℕ) (hj : j < t.dtypes.length) :
    (promoFlags t).getD j false =
      ((t.dtypes.getD j .obj == .obj) && (colCells t.rows j).all cellParses) := by
  unfold promoFlags
  rw [List.getD_eq_getElem _ _ (by simpa using hj), List.getElem_map, List.getElem_range]

theorem promoteTable_cell (v : Table) (r : List Cell) (j : ℕ)
    (hdt : v.dtypes.length = v.names.length)
    (hr : r.length = v.names.length) (hj : j < v.names.length) :
    (List.zipWith (fun b c => if b then promoteCell c else c) (promoFlags v) r).getD j
        none =
      (if (promoFlags v).getD j false then promoteCell (r.getD j none)
       else r.getD j none) := by
  have h1 : j < (promoFlags v).length := by
    rw [promoFlags_length, hdt]
    exact hj
  have h2 : j < r.length := by
    rw [hr]
    exact hj
  have hz : j < (List.zipWith (fun b c => if b then promoteCell c else c)
      (promoFlags v) r).length := by
    rw [List.length_zipWith]
    exact lt_min h1 h2
  rw [List.getD_eq_getElem _ _ hz, List.getD_eq_getElem _ _ h1,
    List.getD_eq_getElem _ _ h2, List.getElem_zipWith]

theorem promoteCell_isSome {c : Cell} (hc : c.isSome = true)
    (hp : cellParses c = true) : (promoteCell c).isSome = true := by
  cases c with
  | none => simp at hc
  | some v =>
    cases v with
    | str s =>
      show ((parseDate s).map Val.inst).isSome = true
      simp only [cellParses] at hp
      simpa using hp
    | num q => rfl
    | inst q => rfl

theorem promoteTable_all_some (v : Table) (hlen : v.LenOk)
    (hall : ∀ r ∈ v.rows, ∀ c ∈ r, c.isSome = true) :
    ∀ r' ∈ (promoteTable v).rows, ∀ c ∈ r', c.isSome = true := by
  intro r' hr' c hc
  obtain ⟨r, hr, rfl⟩ := List.mem_map.1 hr'
  obtain ⟨i, hi, rfl⟩ := List.mem_iff_getElem.1 hc
  have hiv : i < v.names.length := by
    rw [List.length_zipWith, promoFlags_length, hlen.1, hlen.2 r hr, Nat.min_self] at hi
    exact hi
  have hir : i < r.length := by
    rw [hlen.2 r hr]
    exact hiv
  rw [← List.getD_eq_getElem _ none hi]
  rw [promoteTable_cell v r i hlen.1 (hlen.2 r hr) hiv]
  have hcellSome : (r.getD i none).isSome = true := by
    rw [List.getD_eq_getElem _ none hir]
    exact hall r hr _ (List.getElem_mem _)
  by_cases hb : (promoFlags v).getD i false = true
  · rw [if_pos hb]
    have hsem := promoFlags_getD v i (by rw [hlen.1]; exact hiv)
    have hand : ((v.dtypes.getD i .obj == .obj) &&
        (colCells v.rows i).all cellParses) = true := by
      rw [← hsem]
      exact hb
    rw [Bool.and_eq_true] at hand
    have hallp := hand.2
    rw [List.all_eq_true] at hallp
    have hparses : cellParses (r.getD i none) = true :=
      hallp _ (List.mem_map.2 ⟨r, hr, rfl⟩)
    exact promoteCell_isSome hcellSome hparses
  · rw [if_neg hb]
    exact hcellSome

theorem clean_ok_lenOk {t u : Table} (hWF : t.WF) (h : clean_data t = .ok u) :
    u.LenOk := by
  obtain ⟨rfl, _⟩ := clean_ok_eq h
  exact promoteTable_lenOk (fillTable_lenOk (WF_lenOk (cleanPrep_WF t hWF)))

theorem clean_no_missing {t u : Table} (hWF : t.WF) (h : clean_data t = .ok u) :
    ∀ r ∈ u.rows, ∀ c ∈ r, c.isSome = true := by
  obtain ⟨rfl, hnd⟩ := clean_ok_eq h
  have hWF3 := cleanPrep_WF t hWF
  have hobs := cleanPrep_col_observed t hWF
  have hfills := fillsOf_all_some (cleanPrep t) hWF3 hobs
  have hfill_some := fillTable_all_some (cleanPrep t) hfills
  exact promoteTable_all_some _ (fillTable_lenOk (WF_lenOk hWF3)) hfill_some

/-- C5: no-missing-values invariant.  For every well-formed input table on
which `clean_data` succeeds, every cell of every retained column of the
result is a concrete value, and consequently every per-column missing count
the profiler reports on the cleaned table is `0`. -/
theorem clean_no_missing_values (t u : Table) (hWF : t.WF)
    (h : clean_data t = .ok u) :
    (∀ r ∈ u.rows, ∀ c ∈ r, c.isSome = true) ∧
    (∀ p ∈ (analyze_data u).missing_values, p.2 = 0) := by
  refine ⟨clean_no_missing hWF h, ?_⟩
  intro p hp
  obtain ⟨j, hj, rfl⟩ := List.mem_map.1 hp
  rw [List.mem_range] at hj
  show (colCells u.rows j).countP (fun c => c.isNone) = 0
  rw [List.countP_eq_zero]
  intro c hc
  obtain ⟨r, hr, rfl⟩ := List.mem_map.1 hc
  have hlen := (clean_ok_lenOk hWF h).2 r hr
  have hsome : (r.getD j none).isSome = true := by
    rw [List.getD_eq_getElem _ none (by rw [hlen]; exact hj)]
    exact clean_no_missing hWF h r hr _ (List.getElem_mem _)
  cases hopt : r.getD j none with
  | none =>
    rw [hopt] at hsome
    simp at hsome
  | some v => simp [hopt]

/-- A small raw table with missing cells in both columns. -/
def Tmiss : Table :=
  { names := ["a", "b"], dtypes := [.obj, .obj],
    rows := [[vS "x", none], [vS "y", vS "u"], [none, vS "u"]] }

theorem clean_no_missing_values_witness :
    (∀ r ∈ (promoteTable (fillTable (cleanPrep Tmiss))).rows, ∀ c ∈ r,
      c.isSome = true) ∧
    (∀ p ∈ (analyze_data (promoteTable (fillTable (cleanPrep Tmiss)))).missing_values,
      p.2 = 0) :=
  clean_no_missing_values Tmiss _ (by decide) rfl

/-! ### Duplicate column names -/

theorem mem_keepColIdx_of_observed (t : Table) (i : ℕ) (hi : i < t.names.length)
    (hobs : ∃ r ∈ t.rows, (r.getD i none).isSome = true) :
    i ∈ keepColIdx (dropEmptyRows t) := by
  obtain ⟨r, hr, hio⟩ := hobs
  have hirlen : i < r.length := by
    by_contra hge
    rw [List.getD_eq_default _ _ (Nat.le_of_not_lt hge)] at hio
    simp at hio
  have hrkeep : r ∈ (dropEmptyRows t).rows := by
    refine List.mem_filter.2 ⟨hr, ?_⟩
    rw [List.any_eq_true]
    exact ⟨r.getD i none, getD_mem r i none hirlen, hio⟩
  refine List.mem_filter.2 ⟨List.mem_range.2 hi, ?_⟩
  rw [List.any_eq_true]
  exact ⟨r, hrkeep, hio⟩

/-- C6 (amended): whenever two distinct columns share a name and each has
at least one observed value (so that neither is dropped by the all-missing
column removal), `clean_data` surfaces an error to the caller: in the
imputation loop `df_clean[col]` returns a DataFrame and its `.dtype` access
raises.  (Duplicate names confined to all-missing columns are silently
dropped instead — see the counterexample.) -/
theorem duplicate_columns_error (t : Table) (j k : ℕ)
    (hj : j < t.names.length) (hk : k < t.names.length) (hne : j ≠ k)
    (hname : t.names.getD j "" = t.names.getD k "")
    (hoj : ∃ r ∈ t.rows, (r.getD j none).isSome = true)
    (hok : ∃ r ∈ t.rows, (r.getD k none).isSome = true) :
    ∃ e, clean_data t = .error e := by
  have hjk : j ∈ keepColIdx (dropEmptyRows t) := mem_keepColIdx_of_observed t j hj hoj
  have hkk : k ∈ keepColIdx (dropEmptyRows t) := mem_keepColIdx_of_observed t k hk hok
  have hklt : ∀ i ∈ keepColIdx (dropEmptyRows t), i < t.names.length :=
    fun i hi => keepColIdx_lt (dropEmptyRows t) hi
  have hnotnodup : ¬ (cleanPrep t).names.Nodup := by
    intro hnd
    have heq : (cleanPrep t).names =
        (keepColIdx (dropEmptyRows t)).map (fun i => t.names.getD i "") :=
      selIdx_eq_map _ _ "" hklt
    rw [heq] at hnd
    exact hne (List.inj_on_of_nodup_map hnd hjk hkk hname)
  refine ⟨"duplicate column names", ?_⟩
  simp only [clean_data]
  rw [if_neg hnotnodup]

/-- Duplicate column names on all-missing columns: silently dropped. -/
def Tdup : Table :=
  { names := ["a", "a", "b"], dtypes := [.numeric, .numeric, .numeric],
    rows := [[none, none, vN 1]] }

/-- C6 counterexample: an input table with duplicate column names whose
duplicated columns are entirely missing is processed without any error —
the duplicates are dropped by the all-missing-column removal before the
imputation loop ever sees them. -/
theorem duplicate_columns_counterexample :
    ¬ Tdup.names.Nodup ∧
    clean_data Tdup = .ok { names := ["b"], dtypes := [.numeric], rows := [[vN 1]] } :=
  ⟨by decide, rfl⟩

/-- Duplicate column names that both carry data. -/
def Tdup2 : Table :=
  { names := ["a", "a"], dtypes := [.numeric, .numeric],
    rows := [[vN 1, vN 2]] }

theorem duplicate_columns_error_witness :
    ∃ e, clean_data Tdup2 = .error e :=
  duplicate_columns_error Tdup2 0 1 (by decide) (by decide) (by decide) (by decide)
    (by decide) (by decide)

/-! ### Temporal promotion -/

theorem promoteTable_dtype (v : Table) (j : ℕ) (hj : j < v.dtypes.length) (d : Dtype) :
    (promoteTable v).dtypes.getD j d =
      (if (promoFlags v).getD j false then Dtype.datetime else v.dtypes.getD j d) := by
  have h1 : j < (promoFlags v).length := by
    rw [promoFlags_length]
    exact hj
  have hz : j < (List.zipWith (fun b d => if b then Dtype.datetime else d)
      (promoFlags v) v.dtypes).length := by
    rw [List.length_zipWith]
    exact lt_min h1 hj
  show (List.zipWith (fun b d => if b then Dtype.datetime else d)
      (promoFlags v) v.dtypes).getD j d = _
  rw [List.getD_eq_getElem _ _ hz, List.getD_eq_getElem _ _ h1,
    List.getD_eq_getElem _ _ hj, List.getElem_zipWith]

theorem promoteTable_colCells (v : Table) (hlen : v.LenOk) (j : ℕ)
    (hj : j < v.names.length) :
    colCells (promoteTable v).rows j =
      (colCells v.rows j).map
        (fun c => if (promoFlags v).getD j false then promoteCell c else c) := by
  show (v.rows.map (fun r =>
      List.zipWith (fun b c => if b then promoteCell c else c) (promoFlags v) r)).map
        (fun r => r.getD j none) = _
  unfold colCells
  rw [List.map_map, List.map_map]
  apply List.map_congr_left
  intro r hr
  show (List.zipWith (fun b c => if b then promoteCell c else c)
      (promoFlags v) r).getD j none = _
  rw [promoteTable_cell v r j hlen.1 (hlen.2 r hr) hj]
  rfl

/-- C7: temporal promotion is all-or-nothing and non-fatal.  For a
well-formed table (with distinct surviving column names, so cleaning
succeeds), consider any column that is still text (`obj`) when the
imputation loop finished.  If 100% of its post-imputation cells parse as
dates, the cleaned table holds it as `datetime` with every value replaced
by its parsed instant; if even one cell fails to parse, the column keeps
dtype `obj` with its values untouched — and in both cases `clean_data`
returns `ok`, never an error. -/
theorem temporal_promotion (t : Table) (hWF : t.WF)
    (hnd : (cleanPrep t).names.Nodup) (j : ℕ)
    (hj : j < (cleanPrep t).names.length)
    (hobj : (cleanPrep t).dtypes.getD j Dtype.numeric = Dtype.obj) :
    ∃ u, clean_data t = .ok u ∧
      (((colCells (fillTable (cleanPrep t)).rows j).all cellParses = true →
        u.dtypes.getD j Dtype.numeric = Dtype.datetime ∧
        colCells u.rows j = (colCells (fillTable (cleanPrep t)).rows j).map promoteCell ∧
        ∀ c ∈ colCells u.rows j, ∃ d, c = some (.inst d)) ∧
      ((colCells (fillTable (cleanPrep t)).rows j).all cellParses = false →
        u.dtypes.getD j Dtype.numeric = Dtype.obj ∧
        colCells u.rows j = colCells (fillTable (cleanPrep t)).rows j)) := by
  have hWF3 := cleanPrep_WF t hWF
  have hlenv : (fillTable (cleanPrep t)).LenOk := fillTable_lenOk (WF_lenOk hWF3)
  have hfills := fillsOf_all_some (cleanPrep t) hWF3 (cleanPrep_col_observed t hWF)
  have hjd : j < (fillTable (cleanPrep t)).dtypes.length := by
    rw [hlenv.1]
    exact hj
  have hjd3 : j < (cleanPrep t).dtypes.length := hjd
  have hobj2 : (fillTable (cleanPrep t)).dtypes.getD j Dtype.obj = Dtype.obj := by
    show (cleanPrep t).dtypes.getD j Dtype.obj = Dtype.obj
    rw [List.getD_eq_getElem _ _ hjd3]
    rw [List.getD_eq_getElem _ _ hjd3] at hobj
    exact hobj
  have hflag : (promoFlags (fillTable (cleanPrep t))).getD j false =
      (colCells (fillTable (cleanPrep t)).rows j).all cellParses := by
    rw [promoFlags_getD _ _ hjd, hobj2]
    simp
  refine ⟨promoteTable (fillTable (cleanPrep t)), ?_, ?_, ?_⟩
  · simp only [clean_data]
    rw [if_pos hnd]
  · intro hall
    have hflagT : (promoFlags (fillTable (cleanPrep t))).getD j false = true := by
      rw [hflag]
      exact hall
    refine ⟨?_, ?_, ?_⟩
    · show (promoteTable (fillTable (cleanPrep t))).dtypes.getD j Dtype.numeric =
        Dtype.datetime
      rw [promoteTable_dtype _ j hjd, if_pos hflagT]
    · rw [promoteTable_colCells _ hlenv j hj]
      apply List.map_congr_left
      intro c _
      rw [if_pos hflagT]
    · intro c hc
      rw [promoteTable_colCells _ hlenv j hj] at hc
      obtain ⟨c0, hc0, rfl⟩ := List.mem_map.1 hc
      rw [if_pos hflagT]
      have hparse : cellParses c0 = true := (List.all_eq_true.1 hall) c0 hc0
      have hsome : c0.isSome = true := by
        obtain ⟨r, hr, rfl⟩ := List.mem_map.1 hc0
        rw [List.getD_eq_getElem _ none (by rw [hlenv.2 r hr]; exact hj)]
        exact fillTable_all_some (cleanPrep t) hfills r hr _ (List.getElem_mem _)
      cases c0 with
      | none => simp at hsome
      | some w =>
        cases w with
        | str s =>
          simp only [cellParses] at hparse
          obtain ⟨d, hd⟩ := Option.isSome_iff_exists.1 hparse
          exact ⟨d, by simp [promoteCell, hd]⟩
        | num q => simp [cellParses] at hparse
        | inst q => simp [cellParses] at hparse
  · intro hallF
    have hflagF : (promoFlags (fillTable (cleanPrep t))).getD j false = false := by
      rw [hflag]
      exact hallF
    constructor
    · show (promoteTable (fillTable (cleanPrep t))).dtypes.getD j Dtype.numeric =
        Dtype.obj
      rw [promoteTable_dtype _ j hjd, if_neg (by rw [hflagF]; simp)]
      exact hobj
    · rw [promoteTable_colCells _ hlenv j hj]
      have hid : ∀ c ∈ colCells (fillTable (cleanPrep t)).rows j,
          (if (promoFlags (fillTable (cleanPrep t))).getD j false then promoteCell c
           else c) = c := by
        intro c _
        rw [hflagF]
        simp
      rw [List.map_congr_left hid]
      simp

/-- Two text columns: `d` all dates, `e` never a date. -/
def Tpromo : Table :=
  { names := ["d", "e"], dtypes := [.obj, .obj],
    rows := [[vS "2023-01-02", vS "hello"], [vS "2023-01-01", none]] }

theorem temporal_promotion_witness :
    ∃ u, clean_data Tpromo = .ok u ∧
      (((colCells (fillTable (cleanPrep Tpromo)).rows 0).all cellParses = true →
        u.dtypes.getD 0 Dtype.numeric = Dtype.datetime ∧
        colCells u.rows 0 =
          (colCells (fillTable (cleanPrep Tpromo)).rows 0).map promoteCell ∧
        ∀ c ∈ colCells u.rows 0, ∃ d, c = some (.inst d)) ∧
      ((colCells (fillTable (cleanPrep Tpromo)).rows 0).all cellParses = false →
        u.dtypes.getD 0 Dtype.numeric = Dtype.obj ∧
        colCells u.rows 0 = colCells (fillTable (cleanPrep Tpromo)).rows 0)) :=
  temporal_promotion Tpromo (by decide) (by decide) 0 (by decide) (by decide)

/-! ### Preservation of present data -/

theorem fillTable_cell (t : Table) (r : List Cell) (j : ℕ)
    (hr : r.length = t.names.length) (hj : j < t.names.length) :
    (List.zipWith fillCell r (fillsOf t)).getD j none =
      fillCell (r.getD j none) ((fillsOf t).getD j none) := by
  have h1 : j < r.length := by
    rw [hr]
    exact hj
  have h2 : j < (fillsOf t).length := by
    rw [fillsOf_length]
    exact hj
  have hz : j < (List.zipWith fillCell r (fillsOf t)).length := by
    rw [List.length_zipWith]
    exact lt_min h1 h2
  rw [List.getD_eq_getElem _ _ hz, List.getD_eq_getElem _ _ h1,
    List.getD_eq_getElem _ _ h2, List.getElem_zipWith]

/-- C10: cleaning preserves present data.  Every row of the cleaned table
descends from an input row; at each retained column position `i` (original
column index `ks[i]`), a cell that was observed in the input carries its
value unchanged into the cleaned table — imputation touches only missing
cells — except that a column promoted to datetime holds the parsed instant
`promoteCell (some w)` of the original string.  (`clean_data` works on a
pure value, the embedded counterpart of operating on `df.copy()`: the input
table itself is unchanged.) -/
theorem clean_preserves_values (t u : Table) (hWF : t.WF)
    (h : clean_data t = .ok u) :
    ∀ r' ∈ u.rows, ∃ r ∈ t.rows, ∀ i < u.names.length,
      u.names.getD i "" =
        t.names.getD ((keepColIdx (dropEmptyRows t)).getD i 0) "" ∧
      ∀ w : Val,
        r.getD ((keepColIdx (dropEmptyRows t)).getD i 0) none = some w →
          r'.getD i none =
            (if (promoFlags (fillTable (cleanPrep t))).getD i false
             then promoteCell (some w) else some w) := by
  obtain ⟨rfl, hnd⟩ := clean_ok_eq h
  have hWF3 := cleanPrep_WF t hWF
  have hlenv : (fillTable (cleanPrep t)).LenOk := fillTable_lenOk (WF_lenOk hWF3)
  have hklt : ∀ k ∈ keepColIdx (dropEmptyRows t), k < t.names.length :=
    fun k hk => keepColIdx_lt (dropEmptyRows t) hk
  have hnames : (cleanPrep t).names.length = (keepColIdx (dropEmptyRows t)).length :=
    selIdx_length _ _ hklt
  intro r' hr'
  obtain ⟨rv, hrv, rfl⟩ := List.mem_map.1 hr'
  obtain ⟨r3, hr3, rfl⟩ := List.mem_map.1 hrv
  obtain ⟨r1, hr1, rfl⟩ := mem_cleanPrep_rows.1 hr3
  have hr1t : r1 ∈ t.rows := dropEmptyRows_sub t r1 hr1
  have hr1len : r1.length = t.names.length := (hWF.2 r1 hr1t).1
  have hkr : ∀ k ∈ keepColIdx (dropEmptyRows t), k < r1.length := by
    intro k hk
    rw [hr1len]
    exact hklt k hk
  refine ⟨r1, hr1t, ?_⟩
  intro i hi
  have hi3 : i < (cleanPrep t).names.length := hi
  have hik : i < (keepColIdx (dropEmptyRows t)).length := by
    rw [← hnames]
    exact hi3
  constructor
  · show (selIdx (keepColIdx (dropEmptyRows t)) t.names).getD i "" = _
    exact selIdx_getD _ _ "" i hik hklt
  · intro w hw
    have hr3len : (selIdx (keepColIdx (dropEmptyRows t)) r1).length =
        (cleanPrep t).names.length := by
      rw [selIdx_length _ _ hkr, hnames]
    have hvlen : (List.zipWith fillCell (selIdx (keepColIdx (dropEmptyRows t)) r1)
        (fillsOf (cleanPrep t))).length = (fillTable (cleanPrep t)).names.length := by
      apply hlenv.2
      exact List.mem_map.2 ⟨_, hr3, rfl⟩
    rw [promoteTable_cell (fillTable (cleanPrep t)) _ i hlenv.1 hvlen hi]
    rw [fillTable_cell (cleanPrep t) _ i hr3len hi3]
    rw [selIdx_getD _ _ none i hik hkr, hw]
    rfl

/-- A table exercising value preservation: observed strings, a missing
cell, and a distinct marker column. -/
def Tkeep : Table :=
  { names := ["k", "v"], dtypes := [.obj, .obj],
    rows := [[vS "r1", vS "a"], [vS "r2", none], [vS "r3", vS "b"]] }

theorem clean_preserves_values_witness :
    ∃ r ∈ Tkeep.rows,
      ∀ i < (promoteTable (fillTable (cleanPrep Tkeep))).names.length,
        (promoteTable (fillTable (cleanPrep Tkeep))).names.getD i "" =
          Tkeep.names.getD ((keepColIdx (dropEmptyRows Tkeep)).getD i 0) "" ∧
        ∀ w : Val,
          r.getD ((keepColIdx (dropEmptyRows Tkeep)).getD i 0) none = some w →
            ([vS "r1", vS "a"] : List Cell).getD i none =
              (if (promoFlags (fillTable (cleanPrep Tkeep))).getD i false
               then promoteCell (some w) else some w) :=
  clean_preserves_values Tkeep _ (by decide) rfl [vS "r1", vS "a"] (by decide)

/-! ### Idempotence support -/

theorem zipWith_fillCell_eq_self :
    ∀ (r fills : List Cell), (∀ c ∈ r, c.isSome = true) → r.length ≤ fills.length →
      List.zipWith fillCell r fills = r := by
  intro r
  induction r with
  | nil =>
    intro fills _ _
    rfl
  | cons a r ih =>
    intro fills hall hlen
    cases fills with
    | nil => simp at hlen
    | cons f fs =>
      rw [List.zipWith_cons_cons]
      have ha : a.isSome = true := hall a (List.mem_cons_self _ _)
      have hfa : fillCell a f = a := by
        cases a with
        | none => simp at ha
        | some v => rfl
      rw [hfa, ih fs (fun c hc => hall c (List.mem_cons_of_mem _ hc)) (by simpa using hlen)]

theorem zipWith_if_false {α : Type} (g : α → α) :
    ∀ (flags : List Bool) (l : List α),
      (∀ j < flags.length, flags.getD j false = false) → l.length ≤ flags.length →
      List.zipWith (fun b c => if b then g c else c) flags l = l := by
  intro flags
  induction flags with
  | nil =>
    intro l _ hl
    cases l with
    | nil => rfl
    | cons c cs => simp at hl
  | cons b bs ih =>
    intro l hf hl
    cases l with
    | nil => rfl
    | cons c cs =>
      rw [List.zipWith_cons_cons]
      have hb : b = false := hf 0 (by simp)
      rw [hb]
      simp only [Bool.false_eq_true, if_false]
      congr 1
      exact ih cs (fun j hj => hf (j + 1) (by simpa using Nat.succ_lt_succ hj))
        (by simpa using hl)

theorem selIdx_range {α : Type} (l : List α) : selIdx (List.range l.length) l = l := by
  induction l with
  | nil => rfl
  | cons a l ih =>
    show List.filterMap (fun j => (a :: l)[j]?) (List.range (l.length + 1)) = a :: l
    rw [List.range_succ_eq_map, List.filterMap_cons]
    simp only [List.getElem?_cons_zero]
    rw [List.filterMap_map]
    have hco : (fun j => (a :: l)[j]?) ∘ Nat.succ = fun j => l[j]? := by
      funext j
      simp
    rw [hco]
    exact congrArg (a :: ·) ih

theorem clean_rows_nil_iff {t u : Table} (hWF : t.WF) (h : clean_data t = .ok u) :
    u.rows = [] ↔ u.names = [] := by
  obtain ⟨rfl, hnd⟩ := clean_ok_eq h
  constructor
  · intro hrows
    have hprep : (cleanPrep t).rows = [] := by
      apply List.map_eq_nil_iff.1
      apply List.map_eq_nil_iff.1
      exact hrows
    have ht1 : (dropEmptyRows t).rows = [] := by
      have h2 : dedupRows (((dropEmptyRows t).rows).map
          (selIdx (keepColIdx (dropEmptyRows t)))) = [] := hprep
      rw [dedupRows_eq_nil] at h2
      exact List.map_eq_nil_iff.1 h2
    have hks : keepColIdx (dropEmptyRows t) = [] := by
      unfold keepColIdx
      apply List.filter_eq_nil_iff.2
      intro j _
      rw [ht1]
      simp
    show selIdx (keepColIdx (dropEmptyRows t)) t.names = []
    rw [hks]
    rfl
  · intro hnames
    have hks : keepColIdx (dropEmptyRows t) = [] := by
      have hlen : (keepColIdx (dropEmptyRows t)).length = 0 := by
        have hsel := selIdx_length (keepColIdx (dropEmptyRows t)) t.names
          (fun k hk => keepColIdx_lt (dropEmptyRows t) hk)
        have : selIdx (keepColIdx (dropEmptyRows t)) t.names = [] := hnames
        rw [this] at hsel
        exact hsel.symm
      exact List.length_eq_zero.1 hlen
    have ht1 : (dropEmptyRows t).rows = [] := by
      by_contra hne
      obtain ⟨r1, hr1⟩ := List.exists_mem_of_ne_nil _ hne
      have hfil := List.mem_filter.1 hr1
      have hany := hfil.2
      rw [List.any_eq_true] at hany
      obtain ⟨c, hc, hcs⟩ := hany
      obtain ⟨j, hjl, rfl⟩ := List.mem_iff_getElem.1 hc
      have hjn : j < t.names.length := by
        rw [← (hWF.2 r1 hfil.1).1]
        exact hjl
      have hjk : j ∈ keepColIdx (dropEmptyRows t) := by
        refine List.mem_filter.2 ⟨List.mem_range.2 hjn, ?_⟩
        rw [List.any_eq_true]
        exact ⟨r1, hr1, by rw [List.getD_eq_getElem _ none hjl]; exact hcs⟩
      rw [hks] at hjk
      exact List.not_mem_nil _ hjk
    show (((dedupRows (((dropEmptyRows t).rows).map
        (selIdx (keepColIdx (dropEmptyRows t))))).map
          (fun r => List.zipWith fillCell r (fillsOf (cleanPrep t)))).map _) = []
    rw [ht1]
    rfl

theorem Table.ext_eq {a b : Table} (h1 : a.names = b.names)
    (h2 : a.dtypes = b.dtypes) (h3 : a.rows = b.rows) : a = b := by
  cases a
  cases b
  simp_all

/-- C2 (amended): cleaning is idempotent on every output without duplicate
rows: if `clean_data t = ok u` and `u` has no duplicate rows then
`clean_data u = ok u`.  In general a single application is not idempotent,
because imputation runs after duplicate removal and can itself create
duplicate rows, which only a second application removes — see the
counterexample. -/
theorem clean_idempotent_of_nodup (t u : Table) (hWF : t.WF)
    (h : clean_data t = .ok u) (hnd : u.rows.Nodup) :
    clean_data u = .ok u := by
  have hlenU := clean_ok_lenOk hWF h
  have hsome := clean_no_missing hWF h
  have hnil := clean_rows_nil_iff hWF h
  obtain ⟨hu, hnd2⟩ := clean_ok_eq h
  have hndn : u.names.Nodup := by
    rw [hu]
    exact hnd2
  have hrow_ne : ∀ r ∈ u.rows, r ≠ [] := by
    intro r hr hre
    have hru : u.rows ≠ [] := by
      intro hh
      rw [hh] at hr
      exact List.not_mem_nil _ hr
    have hnames_ne : u.names ≠ [] := fun hn => hru (hnil.2 hn)
    have hl := hlenU.2 r hr
    rw [hre] at hl
    exact hnames_ne (List.length_eq_zero.1 hl.symm)
  have h1 : dropEmptyRows u = u := by
    show { u with rows := u.rows.filter (fun r => r.any (fun c => c.isSome)) } = u
    have hfe : u.rows.filter (fun r => r.any (fun c => c.isSome)) = u.rows := by
      rw [List.filter_eq_self]
      intro r hr
      obtain ⟨c, hc⟩ := List.exists_mem_of_ne_nil r (hrow_ne r hr)
      rw [List.any_eq_true]
      exact ⟨c, hc, hsome r hr c hc⟩
    rw [hfe]
  have h2 : dropEmptyCols u = u := by
    by_cases hn : u.names = []
    · have hr0 : u.rows = [] := hnil.2 hn
      have hdt0 : u.dtypes = [] := by
        apply List.length_eq_zero.1
        rw [hlenU.1, hn]
        rfl
      have hks : keepColIdx u = [] := by
        unfold keepColIdx
        rw [hn]
        rfl
      refine Table.ext_eq ?_ ?_ ?_
      · show selIdx (keepColIdx u) u.names = u.names
        rw [hks, hn]
        rfl
      · show selIdx (keepColIdx u) u.dtypes = u.dtypes
        rw [hks, hdt0]
        rfl
      · show u.rows.map (fun r => selIdx (keepColIdx u) r) = u.rows
        rw [hr0]
        rfl
    · have hrne : u.rows ≠ [] := fun hh => hn (hnil.1 hh)
      have hks : keepColIdx u = List.range u.names.length := by
        unfold keepColIdx
        rw [List.filter_eq_self]
        intro j hj
        rw [List.mem_range] at hj
        obtain ⟨r, hr⟩ := List.exists_mem_of_ne_nil _ hrne
        rw [List.any_eq_true]
        refine ⟨r, hr, ?_⟩
        rw [List.getD_eq_getElem _ none (by rw [hlenU.2 r hr]; exact hj)]
        exact hsome r hr _ (List.getElem_mem _)
      refine Table.ext_eq ?_ ?_ ?_
      · show selIdx (keepColIdx u) u.names = u.names
        rw [hks]
        exact selIdx_range u.names
      · show selIdx (keepColIdx u) u.dtypes = u.dtypes
        rw [hks, ← hlenU.1]
        exact selIdx_range u.dtypes
      · show u.rows.map (fun r => selIdx (keepColIdx u) r) = u.rows
        rw [hks]
        have hcong : ∀ r ∈ u.rows, selIdx (List.range u.names.length) r = r := by
          intro r hr
          rw [← hlenU.2 r hr]
          exact selIdx_range r
        have hmc := List.map_congr_left hcong
        simpa using hmc
  have h3 : cleanPrep u = u := by
    show { dropEmptyCols (dropEmptyRows u) with
           rows := dedupRows (dropEmptyCols (dropEmptyRows u)).rows } = u
    rw [h1, h2, dedupRows_eq_self hnd]
  have h4 : fillTable u = u := by
    show { u with rows := u.rows.map (fun r => List.zipWith fillCell r (fillsOf u)) } = u
    have hfe : u.rows.map (fun r => List.zipWith fillCell r (fillsOf u)) = u.rows := by
      have hcong : ∀ r ∈ u.rows, List.zipWith fillCell r (fillsOf u) = r := by
        intro r hr
        exact zipWith_fillCell_eq_self r _ (hsome r hr)
          (by rw [fillsOf_length, hlenU.2 r hr])
      have hmc := List.map_congr_left hcong
      simpa using hmc
    rw [hfe]
  have hvlen : (fillTable (cleanPrep t)).LenOk :=
    fillTable_lenOk (WF_lenOk (cleanPrep_WF t hWF))
  have hdtlen : u.dtypes.length = (fillTable (cleanPrep t)).dtypes.length := by
    rw [hu]
    show (List.zipWith _ (promoFlags (fillTable (cleanPrep t)))
      (fillTable (cleanPrep t)).dtypes).length = _
    rw [List.length_zipWith, promoFlags_length, Nat.min_self]
  have hnlen : u.names.length = (fillTable (cleanPrep t)).names.length := by
    rw [hu]
    rfl
  have h5 : promoteTable u = u := by
    have hflagsF : ∀ j < (promoFlags u).length, (promoFlags u).getD j false = false := by
      intro j hjf
      rw [promoFlags_length] at hjf
      rw [promoFlags_getD u j hjf]
      cases hdt : u.dtypes.getD j .obj with
      | numeric => simp
      | datetime => simp
      | obj =>
        have hjv : j < (fillTable (cleanPrep t)).dtypes.length := by
          rw [← hdtlen]
          exact hjf
        have hjvn : j < (fillTable (cleanPrep t)).names.length := by
          rw [← hnlen, ← hlenU.1]
          exact hjf
        have hdt2 : u.dtypes.getD j .obj =
            (if (promoFlags (fillTable (cleanPrep t))).getD j false then Dtype.datetime
             else (fillTable (cleanPrep t)).dtypes.getD j .obj) := by
          rw [hu]
          exact promoteTable_dtype _ j hjv .obj
        have hflagv : (promoFlags (fillTable (cleanPrep t))).getD j false = false := by
          by_contra hT
          rw [Bool.not_eq_false] at hT
          rw [hT, if_pos rfl] at hdt2
          rw [hdt] at hdt2
          cases hdt2
        have hcells : colCells u.rows j = colCells (fillTable (cleanPrep t)).rows j := by
          rw [hu]
          rw [promoteTable_colCells _ hvlen j hjvn]
          have hid : ∀ c ∈ colCells (fillTable (cleanPrep t)).rows j,
              (if (promoFlags (fillTable (cleanPrep t))).getD j false then promoteCell c
               else c) = c := by
            intro c _
            rw [hflagv]
            simp
          have hmc := List.map_congr_left hid
          simpa using hmc
        have hvobj : (fillTable (cleanPrep t)).dtypes.getD j .obj = .obj := by
          rw [hflagv] at hdt2
          simp only [Bool.false_eq_true, if_false] at hdt2
          rw [hdt] at hdt2
          exact hdt2.symm
        have hallv : (colCells (fillTable (cleanPrep t)).rows j).all cellParses = false := by
          have := promoFlags_getD (fillTable (cleanPrep t)) j hjv
          rw [hflagv, hvobj] at this
          simpa using this.symm
        rw [hcells, hallv]
        simp
    show { names := u.names,
           dtypes := List.zipWith (fun b d => if b then Dtype.datetime else d)
             (promoFlags u) u.dtypes,
           rows := u.rows.map (fun r =>
             List.zipWith (fun b c => if b then promoteCell c else c)
               (promoFlags u) r) } = u
    have hdts : List.zipWith (fun b d => if b then Dtype.datetime else d)
        (promoFlags u) u.dtypes = u.dtypes :=
      zipWith_if_false _ (promoFlags u) u.dtypes hflagsF
        (le_of_eq (promoFlags_length u).symm)
    have hrws : u.rows.map (fun r =>
        List.zipWith (fun b c => if b then promoteCell c else c)
          (promoFlags u) r) = u.rows := by
      have hcong : ∀ r ∈ u.rows,
          List.zipWith (fun b c => if b then promoteCell c else c)
            (promoFlags u) r = r := by
        intro r hr
        refine zipWith_if_false _ (promoFlags u) r hflagsF ?_
        rw [promoFlags_length, hlenU.1, hlenU.2 r hr]
      have hmc := List.map_congr_left hcong
      simpa using hmc
    rw [hdts, hrws]
  simp only [clean_data]
  rw [h3, if_pos hndn, h4, h5]

/-- Input whose imputation creates a duplicate row. -/
def Tidem : Table :=
  { names := ["a", "b"], dtypes := [.obj, .obj],
    rows := [[vS "x", vS "A"], [vS "y", vS "A"], [vS "x", none]] }

/-- The result of one application of `clean_data` to `Tidem`: the missing
cell is filled with the mode `"A"`, which makes rows 1 and 3 equal. -/
def TidemOnce : Table :=
  { names := ["a", "b"], dtypes := [.obj, .obj],
    rows := [[vS "x", vS "A"], [vS "y", vS "A"], [vS "x", vS "A"]] }

/-- The result of a second application: the duplicate created by imputation
is now dropped. -/
def TidemTwice : Table :=
  { names := ["a", "b"], dtypes := [.obj, .obj],
    rows := [[vS "x", vS "A"], [vS "y", vS "A"]] }

/-- C2 counterexample: cleaning is not idempotent.  Duplicates are dropped
before imputation, and filling the missing cell of row 3 duplicates row 1,
so the second clean removes a row: `clean(clean T) ≠ clean T`. -/
theorem clean_not_idempotent_counterexample :
    clean_data Tidem = .ok TidemOnce ∧
    clean_data TidemOnce = .ok TidemTwice ∧
    TidemTwice ≠ TidemOnce :=
  ⟨rfl, rfl, by decide⟩

/-- A raw table whose cleaned form has no duplicate rows. -/
def Tstable : Table :=
  { names := ["p", "q"], dtypes := [.obj, .obj],
    rows := [[vS "u", vS "m"], [vS "w", none]] }

theorem clean_idempotent_witness :
    clean_data (promoteTable (fillTable (cleanPrep Tstable))) =
      .ok (promoteTable (fillTable (cleanPrep Tstable))) :=
  clean_idempotent_of_nodup Tstable _ (by decide) rfl (by decide)
